import Mathlib

/-!
Verification of the multiplexing file-watcher controller (`watcher.py`)
of sublimelsp/LSP-file-watcher-rust.

Shallow embedding conventions:
* Python `dict`s (insertion ordered) are association lists `List (String × α)`;
  assignment upserts in place, `pop` removes the entry preserving order.
* The weak reference stored for a sink is modelled as `Option Nat`: `some s`
  when dereferencing yields a live handler (identified by `s`), `none` when the
  handler object has been garbage collected.
* A raised Python exception is an `Option PyErr` result component: `some e`
  means the call raised `e` and the remaining statements did not run.
* The transport handle is `Option Unit`: the controller only ever tests it for
  existence and records the lines it sent (modelled in the `sent` field).
-/

namespace Watcher

/-- Python exceptions that can escape the functions under study. -/
inductive PyErr where
  | keyError
  | valueError
  | runtimeError
  deriving DecidableEq, Repr

/-- `FileWatcherEvent`: a `(event kind, absolute path)` pair. -/
abbrev Event := String × String

/-- One delivered notification: the watch uid whose registration was used,
the live sink that was called, and the batch passed to it. -/
abbrev Notif := String × Nat × List Event

/-- Lookup in an insertion-ordered association list (Python `d[k]` / `k in d`). -/
def alistFind {α : Type} (m : List (String × α)) (k : String) : Option α :=
  match m with
  | [] => none
  | (k', v) :: rest => if k' = k then some v else alistFind rest k

/-- Python `d[k] = v`: replace in place when the key exists, append otherwise. -/
def alistUpsert {α : Type} (m : List (String × α)) (k : String) (v : α) :
    List (String × α) :=
  match m with
  | [] => [(k, v)]
  | (k', v') :: rest =>
    if k' = k then (k, v) :: rest else (k', v') :: alistUpsert rest k v

/-- Python `d.pop(k)`: remove the entry, preserving the order of the others. -/
def alistErase {α : Type} (m : List (String × α)) (k : String) :
    List (String × α) :=
  match m with
  | [] => []
  | (k', v') :: rest =>
    if k' = k then rest else (k', v') :: alistErase rest k

/-- Apply `f` to the value stored at `k`, in place (Python `d[k].append(...)`). -/
def alistModify {α : Type} (m : List (String × α)) (k : String) (f : α → α) :
    List (String × α) :=
  match m with
  | [] => []
  | (k', v') :: rest =>
    if k' = k then (k', f v') :: rest else (k', v') :: alistModify rest k f

/-- State of a `FileWatcherChokidar` instance (`__init__`), plus the `sent`
log of lines written to the transport, used to observe outgoing traffic. -/
structure WState where
  last_controller_id : Nat
  handlers : List (String × (Option Nat × String))
  transport : Option Unit
  pending_events : List (String × List Event)
  sent : List String
  deriving DecidableEq, Repr

/-- The freshly constructed controller. -/
def initState : WState :=
  { last_controller_id := 0, handlers := [], transport := none,
    pending_events := [], sent := [] }

instance instDecEqNotifList : DecidableEq (List Notif) :=
  instDecidableEqList

instance instDecEqExceptRead {ε α : Type} [DecidableEq ε] [DecidableEq α] :
    DecidableEq (Except ε α) := fun a b =>
  match a, b with
  | .error e, .error e' =>
    if h : e = e' then isTrue (by rw [h]) else isFalse (by simp [h])
  | .ok x, .ok x' =>
    if h : x = x' then isTrue (by rw [h]) else isFalse (by simp [h])
  | .error _, .ok _ => isFalse (by simp)
  | .ok _, .error _ => isFalse (by simp)

instance instDecEqNotifErr : DecidableEq (List Notif × Option PyErr) :=
  instDecidableEqProd

instance instDecEqPayloadResult :
    DecidableEq (WState × List Notif × Option PyErr) :=
  instDecidableEqProd

/-- Split a character list at the first `':'`, if any. -/
def breakAtColon : List Char → Option (List Char × List Char)
  | [] => none
  | c :: cs =>
    if c = ':' then some ([], cs)
    else
      match breakAtColon cs with
      | none => none
      | some (a, b) => some (c :: a, b)

/-- Python `s.split(sep, 2)` specialised to `sep = ':'`: at most two splits,
the remainder (which may itself contain colons) is the last element. -/
def pySplitColon2 (s : String) : List String :=
  match breakAtColon s.data with
  | none => [s]
  | some (a, r1) =>
    match breakAtColon r1 with
    | none => [String.mk a, String.mk r1]
    | some (b, r2) => [String.mk a, String.mk b, String.mk r2]

/-- `os.path.join` (POSIX) for the two components the source joins. -/
def pathJoin (a b : String) : String :=
  if b.data.head? = some '/' then b
  else if a = "" then b
  else if a.data.getLast? = some '/' then a ++ b
  else a ++ "/" ++ b

/-- The flush branch of `on_payload`: iterate the pending map in insertion
order; a uid missing from `_handlers` raises `KeyError` (aborting the loop, so
the entries are not cleared); a dead weak reference is logged and skipped;
otherwise the batch is delivered to the sink. -/
def flushLoop (handlers : List (String × (Option Nat × String))) :
    List (String × List Event) → List Notif × Option PyErr
  | [] => ([], none)
  | (uid, events) :: rest =>
    match alistFind handlers uid with
    | none => ([], some .keyError)
    | some (href, _root) =>
      let tail := flushLoop handlers rest
      match href with
      | none => tail
      | some sink => ((uid, sink, events) :: tail.1, tail.2)

/-- `FileWatcherChokidar.on_payload`.  Returns the state after the call, the
notifications delivered during it, and the exception it raised, if any. -/
def on_payload (st : WState) (payload : String) :
    WState × List Notif × Option PyErr :=
  if payload = "<flush>" then
    let r := flushLoop st.handlers st.pending_events
    match r.2 with
    | some e => (st, r.1, some e)
    | none => ({ st with pending_events := [] }, r.1, none)
  else if ':' ∈ payload.data then
    match pySplitColon2 payload with
    | [uid, event_type, cwd_relative_path] =>
      let st1 :=
        if (alistFind st.pending_events uid).isSome then st
        else { st with pending_events := st.pending_events ++ [(uid, [])] }
      match alistFind st1.handlers uid with
      | none => (st1, [], some .keyError)
      | some (_, root_path) =>
        let ev : Event := (event_type, pathJoin root_path cwd_relative_path)
        ({ st1 with
            pending_events := alistModify st1.pending_events uid (· ++ [ev]) },
          [], none)
    | _ => (st, [], some .valueError)
  else
    -- log('Invalid watcher output: ...')
    (st, [], none)

/-- Feed a sequence of payload lines to `on_payload`, accumulating the
notifications; an exception from one line aborts the run (the transport's
reader would crash there). -/
def runPayloads (st : WState) :
    List String → WState × List Notif × Option PyErr
  | [] => (st, [], none)
  | l :: ls =>
    let r := on_payload st l
    match r.2.2 with
    | some e => (r.1, r.2.1, some e)
    | none =>
      let rest := runPayloads r.1 ls
      (rest.1, r.2.1 ++ rest.2.1, rest.2.2)

/-- A parsed data line: `(uid, event kind, root-relative path)`.  The wire
form is rebuilt by `mkDataLine`. -/
def mkDataLine (t : String × String × String) : String :=
  t.1 ++ ":" ++ t.2.1 ++ ":" ++ t.2.2

/-- The net effect of the data-line branch on the pending map: make sure a
(possibly empty) sequence exists for `uid`, then append the event to it in
place. -/
def appendEvent (p : List (String × List Event)) (u : String) (ev : Event) :
    List (String × List Event) :=
  alistModify (if (alistFind p u).isSome then p else p ++ [(u, [])]) u (· ++ [ev])

/-- The `root_path` stored in the registration for `u` (defaulting for
unregistered uids, which the theorems exclude by hypothesis). -/
def rootOf (handlers : List (String × (Option Nat × String))) (u : String) :
    String :=
  match alistFind handlers u with
  | some v => v.2
  | none => ""

/-- The live sink stored in the registration for `u` (defaulting likewise). -/
def sinkOf (handlers : List (String × (Option Nat × String))) (u : String) :
    Nat :=
  match alistFind handlers u with
  | some (some s, _) => s
  | _ => 0

/-- The distinct elements of a list in first-occurrence order. -/
def uidsInOrder : List String → List String
  | [] => []
  | u :: us => u :: (uidsInOrder us).filter (· ≠ u)

/-- Following the spec's words: the events queued for watch id `u`, as
`(event kind, root_path joined with relative path)` pairs, in arrival
order. -/
def eventsFor (handlers : List (String × (Option Nat × String))) (u : String)
    (ts : List (String × String × String)) : List Event :=
  ts.filterMap fun t =>
    if t.1 = u then some (t.2.1, pathJoin (rootOf handlers t.1) t.2.2) else none

/-- The pending map that queuing the data lines `ts` should build: one entry
per watch id in first-event order, holding that id's events in FIFO order. -/
def groupForm (handlers : List (String × (Option Nat × String)))
    (ts : List (String × String × String)) : List (String × List Event) :=
  (uidsInOrder (ts.map (·.1))).map fun u => (u, eventsFor handlers u ts)

/-- Following the spec's words: the notifications a flush must deliver —
exactly one per watch id holding queued events, grouped by watch id in
first-event order, each carrying that id's sink and its queued events in FIFO
arrival order. -/
def specBatches (handlers : List (String × (Option Nat × String)))
    (ts : List (String × String × String)) : List Notif :=
  (uidsInOrder (ts.map (·.1))).map fun u =>
    (u, sinkOf handlers u, eventsFor handlers u ts)

/-- `u` has a registration whose weak sink reference is still alive. -/
def liveReg (handlers : List (String × (Option Nat × String))) (u : String) :
    Bool :=
  match alistFind handlers u with
  | some (some _, _) => true
  | _ => false

/-- The registrations of the worked protocol example: uid 1 under `root1`
with live sink 1, uid 2 under `root2` with live sink 2. -/
def exHandlers : List (String × (Option Nat × String)) :=
  [("1", (some 1, "root1")), ("2", (some 2, "root2"))]

/-- The worked example's data lines, parsed. -/
def exLines : List (String × String × String) :=
  [("1", "change", "a/b.txt"), ("1", "create", "a/c.txt"),
    ("2", "delete", "x.txt")]

/-! ### JSON serialization (`_to_json`)

`FileWatcherChokidar._to_json` is `json.dumps(obj, ensure_ascii=False,
sort_keys=False, check_circular=False, separators=(',', ':'))`.  The
controller only ever serializes two value shapes: a top-level object whose
members are either an object of atoms (strings, string arrays, ints) or an
atom.  The embedding below reproduces `json.dumps` on exactly that domain:
compact separators, insertion-ordered keys, and the C-python string escaping
(`\\`, `\"`, `\b`, `\f`, `\n`, `\r`, `\t`, `\u00xx` for other control
characters; `ensure_ascii=False` passes all other characters through). -/

/-- The character `{` (kept out of string literals on purpose). -/
def lbrace : Char := Char.ofNat 123

/-- The character `}`. -/
def rbrace : Char := Char.ofNat 125

/-- Lower-case hexadecimal digit, as `json.dumps` emits in `\u00xx`. -/
def hexDigitChar (n : Nat) : Char :=
  if n < 10 then Char.ofNat (48 + n) else Char.ofNat (87 + n)

/-- How `json.dumps` escapes one character inside a string literal. -/
def escapeChar (c : Char) : List Char :=
  if c = '\\' then ['\\', '\\']
  else if c = '\"' then ['\\', '\"']
  else if c = Char.ofNat 8 then ['\\', 'b']
  else if c = Char.ofNat 12 then ['\\', 'f']
  else if c = '\n' then ['\\', 'n']
  else if c = '\r' then ['\\', 'r']
  else if c = '\t' then ['\\', 't']
  else if c.toNat < 32 then
    ['\\', 'u', '0', '0', hexDigitChar (c.toNat / 16), hexDigitChar (c.toNat % 16)]
  else [c]

def escapeString : List Char → List Char
  | [] => []
  | c :: cs => escapeChar c ++ escapeString cs

/-- A JSON string literal: `"` + escaped body + `"`. -/
def dumpString (s : String) : List Char :=
  '\"' :: (escapeString s.data ++ ['\"'])

def digitChar (d : Nat) : Char := Char.ofNat (48 + d)

/-- Decimal digits of `n`, most significant first; the fuel argument makes the
recursion structural (and hence kernel-reducible), `fuel ≥ n` suffices. -/
def natToDigitsAux : Nat → Nat → List Char
  | 0, n => [digitChar n]
  | fuel + 1, n =>
    if n < 10 then [digitChar n]
    else natToDigitsAux fuel (n / 10) ++ [digitChar (n % 10)]

def natToDigits (n : Nat) : List Char := natToDigitsAux n n

/-- The digit values `natToDigitsAux` renders, for reasoning about the
decimal round trip. -/
def toDigitNats : Nat → Nat → List Nat
  | 0, n => [n]
  | fuel + 1, n =>
    if n < 10 then [n] else toDigitNats fuel (n / 10) ++ [n % 10]

/-- How `json.dumps` prints a Python `int`. -/
def dumpInt (n : Int) : List Char :=
  if n < 0 then '-' :: natToDigits n.natAbs else natToDigits n.natAbs

/-- A JSON atom as used by this protocol: string, integer, or array of
strings. -/
inductive JAtom where
  | jstr (s : String)
  | jint (n : Int)
  | jarr (elems : List String)
  deriving DecidableEq

/-- Array elements, comma-separated (`separators=(',', ':')`). -/
def dumpArrElems : List String → List Char
  | [] => []
  | [x] => dumpString x
  | x :: y :: xs => dumpString x ++ ',' :: dumpArrElems (y :: xs)

def dumpAtom : JAtom → List Char
  | .jstr s => dumpString s
  | .jint n => dumpInt n
  | .jarr xs => '[' :: dumpArrElems xs ++ [']']

/-- Object members `"k":v`, comma-separated, insertion order
(`sort_keys=False`). -/
def dumpAtomFields : List (String × JAtom) → List Char
  | [] => []
  | [(k, v)] => dumpString k ++ ':' :: dumpAtom v
  | (k, v) :: f :: fs => dumpString k ++ ':' :: dumpAtom v ++ ',' :: dumpAtomFields (f :: fs)

def dumpAtomObj (fs : List (String × JAtom)) : List Char :=
  lbrace :: dumpAtomFields fs ++ [rbrace]

/-- A member value of the top-level object: an object of atoms, or an atom. -/
inductive JVal where
  | atom (a : JAtom)
  | obj (fields : List (String × JAtom))
  deriving DecidableEq

def dumpJVal : JVal → List Char
  | .atom a => dumpAtom a
  | .obj fs => dumpAtomObj fs

def dumpTopFields : List (String × JVal) → List Char
  | [] => []
  | [(k, v)] => dumpString k ++ ':' :: dumpJVal v
  | (k, v) :: f :: fs => dumpString k ++ ':' :: dumpJVal v ++ ',' :: dumpTopFields (f :: fs)

/-- `FileWatcherChokidar._to_json` on a top-level JSON object. -/
def to_json (fields : List (String × JVal)) : String :=
  String.mk (lbrace :: dumpTopFields fields ++ [rbrace])

/-- The `register_data` dict built in `_on_watcher_added` (field order as in
the source: cwd, events, ignores, patterns, uid). -/
def registerData (root_path : String) (events ignores patterns : List String)
    (uid : Nat) : List (String × JVal) :=
  [("register", .obj
    [("cwd", .jstr root_path),
     ("events", .jarr events),
     ("ignores", .jarr ignores),
     ("patterns", .jarr patterns),
     ("uid", .jint uid)])]

/-- The `{'unregister': controller_id}` dict from `_on_watcher_removed`. -/
def unregisterData (uid : Nat) : List (String × JVal) :=
  [("unregister", .atom (.jint uid))]

/-! ### A parser for the serialized protocol lines (for the round-trip
property): it accepts exactly the compact no-whitespace form `_to_json`
emits over the value domain the controller uses. -/

/-- Value of a hexadecimal digit character. -/
def hexVal (c : Char) : Option Nat :=
  if '0' ≤ c ∧ c ≤ '9' then some (c.toNat - 48)
  else if 'a' ≤ c ∧ c ≤ 'f' then some (c.toNat - 87)
  else if 'A' ≤ c ∧ c ≤ 'F' then some (c.toNat - 55)
  else none

/-- Decode a single-character JSON escape (`\"`, `\\`, `\/`, `\b`, `\f`,
`\n`, `\r`, `\t`). -/
def unescapeChar (e : Char) : Option Char :=
  if e = '\"' then some '\"'
  else if e = '\\' then some '\\'
  else if e = '/' then some '/'
  else if e = 'b' then some (Char.ofNat 8)
  else if e = 'f' then some (Char.ofNat 12)
  else if e = 'n' then some '\n'
  else if e = 'r' then some '\r'
  else if e = 't' then some '\t'
  else none

/-- Parse a JSON string body up to its closing quote, undoing the escapes. -/
def parseJStrBody : List Char → Option (List Char × List Char)
  | [] => none
  | c :: rest =>
    if c = '\"' then some ([], rest)
    else if c = '\\' then
      match rest with
      | [] => none
      | e :: rest2 =>
        if e = 'u' then
          match rest2 with
          | h1 :: h2 :: h3 :: h4 :: rest3 =>
            match hexVal h1, hexVal h2, hexVal h3, hexVal h4 with
            | some v1, some v2, some v3, some v4 =>
              (parseJStrBody rest3).map fun pr =>
                (Char.ofNat (v1 * 4096 + v2 * 256 + v3 * 16 + v4) :: pr.1, pr.2)
            | _, _, _, _ => none
          | _ => none
        else
          match unescapeChar e with
          | some d => (parseJStrBody rest2).map fun pr => (d :: pr.1, pr.2)
          | none => none
    else (parseJStrBody rest).map fun pr => (c :: pr.1, pr.2)

/-- Parse a JSON string literal. -/
def parseJString (s : List Char) : Option (String × List Char) :=
  match s with
  | c :: rest =>
    if c = '\"' then (parseJStrBody rest).map fun pr => (String.mk pr.1, pr.2)
    else none
  | [] => none

def digitVal (c : Char) : Option Nat :=
  if '0' ≤ c ∧ c ≤ '9' then some (c.toNat - 48) else none

/-- Take the longest digit prefix. -/
def takeDigits : List Char → List Nat × List Char
  | [] => ([], [])
  | c :: rest =>
    match digitVal c with
    | some d => let pr := takeDigits rest; (d :: pr.1, pr.2)
    | none => ([], c :: rest)

def digitsToNat (ds : List Nat) : Nat :=
  ds.foldl (fun a d => a * 10 + d) 0

/-- Parse a JSON integer. -/
def parseJInt (s : List Char) : Option (Int × List Char) :=
  match s with
  | c :: rest =>
    if c = '-' then
      match takeDigits rest with
      | ([], _) => none
      | (ds, rest2) => some (-(digitsToNat ds : Int), rest2)
    else
      match takeDigits (c :: rest) with
      | ([], _) => none
      | (ds, rest2) => some ((digitsToNat ds : Int), rest2)
  | [] => none

/-- Parse the elements of a non-empty string array (after the `[`); the fuel
bounds the number of elements by the input length. -/
def parseStrArrayElemsF : Nat → List Char → Option (List String × List Char)
  | 0, _ => none
  | fuel + 1, s =>
    match parseJString s with
    | none => none
    | some (str, rest) =>
      match rest with
      | c :: rest2 =>
        if c = ',' then
          match parseStrArrayElemsF fuel rest2 with
          | some (strs, rest3) => some (str :: strs, rest3)
          | none => none
        else if c = ']' then some ([str], rest2)
        else none
      | [] => none

/-- Parse a JSON array of strings. -/
def parseStrArray (s : List Char) : Option (List String × List Char) :=
  match s with
  | c :: rest =>
    if c = '[' then
      match rest with
      | c2 :: rest2 =>
        if c2 = ']' then some ([], rest2)
        else parseStrArrayElemsF (rest.length + 1) rest
      | [] => none
    else none
  | [] => none

/-- Parse a protocol atom: string, array of strings, or integer. -/
def parseAtom (s : List Char) : Option (JAtom × List Char) :=
  match s with
  | c :: _ =>
    if c = '\"' then (parseJString s).map fun pr => (.jstr pr.1, pr.2)
    else if c = '[' then (parseStrArray s).map fun pr => (.jarr pr.1, pr.2)
    else (parseJInt s).map fun pr => (.jint pr.1, pr.2)
  | [] => none

/-- Parse the members of a non-empty object of atoms (after the opening
brace). -/
def parseAtomFieldsF : Nat → List Char → Option (List (String × JAtom) × List Char)
  | 0, _ => none
  | fuel + 1, s =>
    match parseJString s with
    | none => none
    | some (k, rest) =>
      match rest with
      | c :: rest2 =>
        if c = ':' then
          match parseAtom rest2 with
          | none => none
          | some (v, rest3) =>
            match rest3 with
            | c2 :: rest4 =>
              if c2 = ',' then
                (parseAtomFieldsF fuel rest4).map fun pr => ((k, v) :: pr.1, pr.2)
              else if c2 = rbrace then some ([(k, v)], rest4)
              else none
            | [] => none
        else none
      | [] => none

/-- Parse an object of atoms. -/
def parseAtomObj (s : List Char) : Option (List (String × JAtom) × List Char) :=
  match s with
  | c :: rest =>
    if c = lbrace then
      match rest with
      | c2 :: rest2 =>
        if c2 = rbrace then some ([], rest2)
        else parseAtomFieldsF (rest.length + 1) rest
      | [] => none
    else none
  | [] => none

/-- Parse a member value of the top-level object. -/
def parseJVal (s : List Char) : Option (JVal × List Char) :=
  match s with
  | c :: _ =>
    if c = lbrace then (parseAtomObj s).map fun pr => (.obj pr.1, pr.2)
    else (parseAtom s).map fun pr => (.atom pr.1, pr.2)
  | [] => none

/-- Parse the members of a non-empty top-level object (after the opening
brace). -/
def parseTopFieldsF : Nat → List Char → Option (List (String × JVal) × List Char)
  | 0, _ => none
  | fuel + 1, s =>
    match parseJString s with
    | none => none
    | some (k, rest) =>
      match rest with
      | c :: rest2 =>
        if c = ':' then
          match parseJVal rest2 with
          | none => none
          | some (v, rest3) =>
            match rest3 with
            | c2 :: rest4 =>
              if c2 = ',' then
                (parseTopFieldsF fuel rest4).map fun pr => ((k, v) :: pr.1, pr.2)
              else if c2 = rbrace then some ([(k, v)], rest4)
              else none
            | [] => none
        else none
      | [] => none

/-- Parse a whole protocol line: a single top-level JSON object consuming the
entire line. -/
def parseTop (line : String) : Option (List (String × JVal)) :=
  match line.data with
  | c :: rest =>
    if c = lbrace then
      match rest with
      | c2 :: rest2 =>
        if c2 = rbrace then (if rest2 = [] then some [] else none)
        else
          match parseTopFieldsF (rest.length + 1) rest with
          | some (fs, rest3) => if rest3 = [] then some fs else none
          | none => none
      | [] => none
    else none
  | [] => none

/-! ### Registration, unregistration and process lifecycle -/

/-- `FileWatcherChokidar._start_process`: the spawn either succeeds (a
transport now exists) or raises `RuntimeError('Failed initializing watcher
process')`; `spawnOk` is the environment's spawn outcome. -/
def startProcess (st : WState) (spawnOk : Bool) : WState × Option PyErr :=
  if spawnOk then ({ st with transport := some () }, none)
  else (st, some .runtimeError)

/-- `FileWatcherChokidar._on_watcher_added`. -/
def on_watcher_added (st : WState) (controller_id : Nat) (root_path : String)
    (patterns events ignores : List String) (handler : Option Nat)
    (spawnOk : Bool) : WState × Option PyErr :=
  let st1 := { st with
    handlers := alistUpsert st.handlers (toString controller_id) (handler, root_path) }
  let r :=
    if st1.handlers ≠ [] ∧ st1.transport = none then startProcess st1 spawnOk
    else (st1, none)
  match r.2 with
  | some e => (r.1, some e)
  | none =>
    let st2 := r.1
    if st2.transport = none then (st2, none)  -- log('ERROR: Failed creating transport')
    else
      ({ st2 with sent := st2.sent ++
          [to_json (registerData root_path events ignores patterns controller_id)] },
        none)

/-- `FileWatcherChokidar.register_watcher`: allocate the next controller id
and run `_on_watcher_added`.  Returns the state, the allocated id, and the
exception if one was raised. -/
def register_watcher (st : WState) (root_path : String)
    (patterns events ignores : List String) (handler : Option Nat)
    (spawnOk : Bool) : WState × Nat × Option PyErr :=
  let id := st.last_controller_id + 1
  let st1 := { st with last_controller_id := id }
  let r := on_watcher_added st1 id root_path patterns events ignores handler spawnOk
  (r.1, id, r.2)

/-- `FileWatcherChokidar._on_watcher_removed`: `dict.pop` raises `KeyError`
for an unknown id; a missing transport is logged; otherwise the unregister
command is sent and, when the registry became empty, `_end_process` drops the
transport. -/
def on_watcher_removed (st : WState) (controller_id : Nat) :
    WState × Option PyErr :=
  match alistFind st.handlers (toString controller_id) with
  | none => (st, some .keyError)
  | some _ =>
    let st1 := { st with handlers := alistErase st.handlers (toString controller_id) }
    if st1.transport = none then (st1, none)  -- log('ERROR: Transport does not exist')
    else
      let st2 := { st1 with sent := st1.sent ++ [to_json (unregisterData controller_id)] }
      if st2.handlers = [] ∧ st2.transport ≠ none then
        ({ st2 with transport := none }, none)
      else (st2, none)

/-- One public controller call: a `register_watcher` (with the environment's
spawn outcome for that call) or a `destroy()` of the controller with the
given id. -/
inductive Op where
  | reg (root_path : String) (patterns events ignores : List String)
      (handler : Option Nat) (spawnOk : Bool)
  | unreg (id : Nat)

/-- The state after one call (exceptions leave the state components as the
partially-executed Python method left them). -/
def stepOp (st : WState) : Op → WState
  | .reg r p e i h ok => (register_watcher st r p e i h ok).1
  | .unreg id => (on_watcher_removed st id).1

def runOps (st : WState) : List Op → WState
  | [] => st
  | op :: ops => runOps (stepOp st op) ops

/-- The WatchIds handed out by the successive `register_watcher` calls of a
call sequence. -/
def assignedIds (st : WState) : List Op → List Nat
  | [] => []
  | .reg r p e i h ok :: ops =>
    (st.last_controller_id + 1) :: assignedIds (stepOp st (.reg r p e i h ok)) ops
  | .unreg id :: ops => assignedIds (stepOp st (.unreg id)) ops

/-- A call is valid when the environment lets the spawn succeed and an
unregister names a currently registered id (the spec calls other unregisters
"a programming error in callers"). -/
def validOp (st : WState) : Op → Bool
  | .reg _ _ _ _ _ ok => ok
  | .unreg id => (alistFind st.handlers (toString id)).isSome

def validRun (st : WState) : List Op → Bool
  | [] => true
  | op :: ops => validOp st op && validRun (stepOp st op) ops

/-- The §3 invariant: the process handle exists iff the registry is
non-empty. -/
def transportInvariant (st : WState) : Prop :=
  st.transport.isSome ↔ st.handlers ≠ []

/-! ### Line transport read path (`StringTransportHandler.read_data`) -/

/-- The exception `read_data` raises to end the transport's read loop. -/
inductive StopLoopError where
  | mk
  deriving DecidableEq, Repr

/-- A UTF-8 continuation byte (`0x80`–`0xBF`). -/
def contByte (b : Nat) : Bool := 128 ≤ b && b ≤ 191

/-- Strict UTF-8 decoding of a byte sequence, as Python's
`bytes.decode('utf-8')`: rejects invalid leading bytes, truncated sequences,
bad continuation bytes, overlong encodings and surrogates. -/
def utf8Decode : List Nat → Option (List Char)
  | [] => some []
  | b :: rest =>
    if b < 128 then (utf8Decode rest).map (Char.ofNat b :: ·)
    else if 194 ≤ b ∧ b ≤ 223 then
      match rest with
      | c1 :: rest2 =>
        if contByte c1 then
          (utf8Decode rest2).map (Char.ofNat ((b - 192) * 64 + (c1 - 128)) :: ·)
        else none
      | _ => none
    else if 224 ≤ b ∧ b ≤ 239 then
      match rest with
      | c1 :: c2 :: rest2 =>
        if (if b = 224 then 160 else 128) ≤ c1 ∧
            c1 ≤ (if b = 237 then 159 else 191) ∧ contByte c2 then
          (utf8Decode rest2).map
            (Char.ofNat ((b - 224) * 4096 + (c1 - 128) * 64 + (c2 - 128)) :: ·)
        else none
      | _ => none
    else if 240 ≤ b ∧ b ≤ 244 then
      match rest with
      | c1 :: c2 :: c3 :: rest2 =>
        if (if b = 240 then 144 else 128) ≤ c1 ∧
            c1 ≤ (if b = 244 then 143 else 191) ∧ contByte c2 ∧ contByte c3 then
          (utf8Decode rest2).map
            (Char.ofNat ((b - 240) * 262144 + (c1 - 128) * 4096 +
              (c2 - 128) * 64 + (c3 - 128)) :: ·)
        else none
      | _ => none
    else none

/-- Python `str.strip()` whitespace test (the ASCII whitespace characters). -/
def isPySpace (c : Char) : Bool :=
  c = ' ' || c = '\t' || c = '\n' || c = '\r' || c = Char.ofNat 11 ||
    c = Char.ofNat 12

/-- Python `str.strip()`. -/
def pyStrip (s : List Char) : List Char :=
  ((s.dropWhile isPySpace).reverse.dropWhile isPySpace).reverse

/-- `StringTransportHandler.read_data`: decode the raw line and strip it;
a decode failure is logged and leaves `text = None`; a falsy `text` (`None`
or the empty string) raises `StopLoopError`; otherwise the line is
returned. -/
def read_data (data : List Nat) : Except StopLoopError String :=
  match (utf8Decode data).map pyStrip with
  | none => .error .mk
  | some [] => .error .mk
  | some cs => .ok (String.mk cs)

/-- Modelled from the spec: the transport's background reader (which lives in
the host LSP package, outside this repository) calls `read_data` on each raw
line in order and delivers the results, and §4.1's "an empty or unusable line
... terminates the read loop": `StopLoopError` ends the loop. -/
def readLoop : List (List Nat) → List String
  | [] => []
  | b :: bs =>
    match read_data b with
    | .error _ => []
    | .ok s => s :: readLoop bs

/-- A state with one registration whose sink has been garbage collected and
one queued batch for it (used to exercise the stale-sink flush path). -/
def staleFlushState : WState :=
  { initState with
    handlers := [("1", (none, "/r"))],
    pending_events := [("1", [("change", "/r/a")])] }

/-- A state with a single live registration and no transport. -/
def soloRegState : WState :=
  { initState with handlers := [("3", (some 1, "/r"))] }

/-- A state with one dead-sink registration ("1") and one live one ("2"),
both with queued batches. -/
def mixedFlushState : WState :=
  { initState with
    handlers := [("1", (none, "/r1")), ("2", (some 9, "/r2"))],
    pending_events :=
      [("1", [("change", "/r1/a")]), ("2", [("delete", "/r2/b")])] }

/-! ### Helper lemmas -/

theorem alistUpsert_ne_nil {α : Type} (m : List (String × α)) (k : String)
    (v : α) : alistUpsert m k v ≠ [] := by
  cases m with
  | nil => simp [alistUpsert]
  | cons hd tl =>
    unfold alistUpsert
    split <;> simp

theorem alistFind_isSome_ne_nil {α : Type} {m : List (String × α)} {k : String}
    (h : (alistFind m k).isSome) : m ≠ [] := by
  intro hm
  subst hm
  simp [alistFind] at h

theorem on_watcher_added_last (st : WState) (cid : Nat) (root : String)
    (p e i : List String) (h : Option Nat) (ok : Bool) :
    (on_watcher_added st cid root p e i h ok).1.last_controller_id =
      st.last_controller_id := by
  unfold on_watcher_added startProcess
  dsimp only
  repeat' split
  all_goals rfl

theorem on_watcher_removed_last (st : WState) (cid : Nat) :
    (on_watcher_removed st cid).1.last_controller_id =
      st.last_controller_id := by
  unfold on_watcher_removed
  dsimp only
  repeat' split
  all_goals rfl

theorem stepOp_reg_last (st : WState) (root : String) (p e i : List String)
    (h : Option Nat) (ok : Bool) :
    (stepOp st (.reg root p e i h ok)).last_controller_id =
      st.last_controller_id + 1 := by
  unfold stepOp register_watcher
  rw [on_watcher_added_last]

theorem stepOp_unreg_last (st : WState) (id : Nat) :
    (stepOp st (.unreg id)).last_controller_id = st.last_controller_id := by
  unfold stepOp
  rw [on_watcher_removed_last]

theorem assignedIds_gt (ops : List Op) :
    ∀ st : WState, ∀ i ∈ assignedIds st ops, st.last_controller_id < i := by
  induction ops with
  | nil => intro st i hi; simp [assignedIds] at hi
  | cons op ops ih =>
    intro st i hi
    cases op with
    | reg root p e ig h ok =>
      rw [assignedIds] at hi
      rcases List.mem_cons.mp hi with hic | hit
      · omega
      · have := ih _ i hit
        rw [stepOp_reg_last] at this
        omega
    | unreg id =>
      rw [assignedIds] at hi
      have := ih _ i hi
      rw [stepOp_unreg_last] at this
      omega

theorem assignedIds_pairwise (ops : List Op) (st : WState) :
    List.Pairwise (· < ·) (assignedIds st ops) := by
  induction ops generalizing st with
  | nil => exact List.Pairwise.nil
  | cons op ops ih =>
    cases op with
    | reg root p e ig h ok =>
      rw [assignedIds]
      refine List.Pairwise.cons ?_ (ih _)
      intro i hi
      have := assignedIds_gt ops _ i hi
      rw [stepOp_reg_last] at this
      omega
    | unreg id =>
      rw [assignedIds]
      exact ih _

theorem transportInvariant_of {st : WState} (h1 : st.transport.isSome = true)
    (h2 : st.handlers ≠ []) : transportInvariant st :=
  ⟨fun _ => h2, fun _ => h1⟩

theorem stepOp_reg_ok (st : WState) (root : String) (p e i : List String)
    (hnd : Option Nat) :
    (stepOp st (.reg root p e i hnd true)).transport.isSome = true ∧
      (stepOp st (.reg root p e i hnd true)).handlers ≠ [] := by
  unfold stepOp register_watcher on_watcher_added startProcess
  dsimp only
  rcases htr : st.transport with _ | u
  · simp only [htr]
    rw [if_pos ⟨alistUpsert_ne_nil _ _ _, trivial⟩]
    exact ⟨rfl, alistUpsert_ne_nil _ _ _⟩
  · simp only [htr]
    rw [if_neg (by simp)]
    dsimp only
    rw [if_neg (by simp)]
    exact ⟨rfl, alistUpsert_ne_nil _ _ _⟩

theorem stepOp_unreg_inv (st : WState) (id : Nat)
    (hfind : (alistFind st.handlers (toString id)).isSome = true)
    (hinv : transportInvariant st) :
    transportInvariant (stepOp st (.unreg id)) := by
  have hne : st.handlers ≠ [] := alistFind_isSome_ne_nil hfind
  have htr : st.transport = some () := by
    have hs : st.transport.isSome = true := hinv.mpr hne
    obtain ⟨u, hu⟩ := Option.isSome_iff_exists.mp hs
    cases u
    exact hu
  obtain ⟨v, hv⟩ := Option.isSome_iff_exists.mp hfind
  unfold stepOp on_watcher_removed
  dsimp only
  rw [hv]
  dsimp only
  simp only [htr]
  rw [if_neg (by simp)]
  by_cases hE : alistErase st.handlers (toString id) = []
  · rw [if_pos ⟨hE, by simp⟩]
    simp [transportInvariant, hE]
  · rw [if_neg (fun h => hE h.1)]
    exact transportInvariant_of rfl hE

theorem transportInvariant_init : transportInvariant initState := by
  simp [transportInvariant, initState]

theorem validRun_inv (ops : List Op) :
    ∀ st : WState, transportInvariant st → validRun st ops = true →
      transportInvariant (runOps st ops) := by
  induction ops with
  | nil => intro st h _; exact h
  | cons op ops ih =>
    intro st hinv hval
    rw [validRun, Bool.and_eq_true] at hval
    rw [runOps]
    refine ih _ ?_ hval.2
    cases op with
    | reg root p e i hnd ok =>
      have hok : ok = true := hval.1
      subst hok
      exact transportInvariant_of (stepOp_reg_ok st root p e i hnd).1
        (stepOp_reg_ok st root p e i hnd).2
    | unreg id => exact stepOp_unreg_inv st id hval.1 hinv

theorem validRun_take (ops : List Op) :
    ∀ (st : WState) (n : Nat), validRun st ops = true →
      validRun st (List.take n ops) = true := by
  induction ops with
  | nil => intro st n _; simp [validRun]
  | cons op ops ih =>
    intro st n hval
    cases n with
    | zero => rfl
    | succ n =>
      rw [validRun, Bool.and_eq_true] at hval
      rw [List.take_succ_cons, validRun, Bool.and_eq_true]
      exact ⟨hval.1, ih _ n hval.2⟩

theorem breakAtColon_append (l r : List Char) (h : ':' ∉ l) :
    breakAtColon (l ++ ':' :: r) = some (l, r) := by
  induction l with
  | nil => simp [breakAtColon]
  | cons c cs ih =>
    have hc : ¬c = ':' := fun hh => h (hh ▸ List.mem_cons_self c cs)
    have hcs : ':' ∉ cs := fun hh => h (List.mem_cons_of_mem _ hh)
    simp only [List.cons_append, breakAtColon, List.append_eq]
    rw [if_neg hc, ih hcs]

theorem mkDataLine_data (u k r : String) :
    (mkDataLine (u, k, r)).data = u.data ++ ':' :: (k.data ++ ':' :: r.data) := by
  simp [mkDataLine, String.data_append, List.append_assoc]

theorem colon_mem_mkDataLine (u k r : String) :
    ':' ∈ (mkDataLine (u, k, r)).data := by
  rw [mkDataLine_data]
  exact List.mem_append_right _ (List.mem_cons_self _ _)

theorem mkDataLine_ne_flush (u k r : String) : mkDataLine (u, k, r) ≠ "<flush>" := by
  intro h
  have hmem := colon_mem_mkDataLine u k r
  rw [h] at hmem
  exact absurd hmem (by decide)

theorem pySplitColon2_mkDataLine (u k r : String) (hu : ':' ∉ u.data)
    (hk : ':' ∉ k.data) : pySplitColon2 (mkDataLine (u, k, r)) = [u, k, r] := by
  unfold pySplitColon2
  rw [mkDataLine_data, breakAtColon_append _ _ hu]
  dsimp only
  rw [breakAtColon_append _ _ hk]

theorem on_payload_mkDataLine (st : WState) (u k r : String)
    (v : Option Nat × String) (hu : ':' ∉ u.data) (hk : ':' ∉ k.data)
    (hfind : alistFind st.handlers u = some v) :
    on_payload st (mkDataLine (u, k, r)) =
      ({ st with pending_events :=
          appendEvent st.pending_events u (k, pathJoin v.2 r) }, [], none) := by
  obtain ⟨sref, root⟩ := v
  unfold on_payload
  rw [if_neg (mkDataLine_ne_flush u k r), if_pos (colon_mem_mkDataLine u k r)]
  rw [pySplitColon2_mkDataLine u k r hu hk]
  dsimp only
  unfold appendEvent
  by_cases hp : (alistFind st.pending_events u).isSome = true
  · rw [if_pos hp, if_pos hp]
    rw [hfind]
  · rw [if_neg hp, if_neg hp]
    dsimp only
    rw [hfind]

theorem alistFind_keyed (g : String → List Event) (u : String) :
    ∀ l : List String,
      alistFind (l.map fun x => (x, g x)) u = if u ∈ l then some (g u) else none := by
  intro l
  induction l with
  | nil => simp [alistFind]
  | cons x xs ih =>
    simp only [List.map_cons, alistFind]
    by_cases hx : x = u
    · subst hx
      rw [if_pos rfl, if_pos (List.mem_cons_self _ _)]
    · rw [if_neg hx, ih]
      by_cases hm : u ∈ xs
      · rw [if_pos hm, if_pos (List.mem_cons_of_mem _ hm)]
      · rw [if_neg hm, if_neg ?_]
        rw [List.mem_cons]
        rintro (h1 | h2)
        · exact hx h1.symm
        · exact hm h2

theorem alistModify_keyed (g : String → List Event) (u : String)
    (f : List Event → List Event) :
    ∀ l : List String, l.Nodup →
      alistModify (l.map fun x => (x, g x)) u f =
        l.map fun x => (x, if x = u then f (g x) else g x) := by
  intro l
  induction l with
  | nil => intro _; rfl
  | cons x xs ih =>
    intro hnd
    simp only [List.map_cons, alistModify]
    by_cases hx : x = u
    · subst hx
      rw [if_pos rfl, if_pos rfl]
      congr 1
      refine (List.map_congr_left ?_).symm
      intro a ha
      have hax : ¬a = x := fun h => (List.nodup_cons.mp hnd).1 (h ▸ ha)
      rw [if_neg hax]
    · rw [if_neg hx, if_neg hx]
      congr 1
      exact ih (List.Nodup.of_cons hnd)

theorem alistModify_append_notfound (u : String)
    (f : List Event → List Event) (x₀ : List Event) :
    ∀ p : List (String × List Event), alistFind p u = none →
      alistModify (p ++ [(u, x₀)]) u f = p ++ [(u, f x₀)] := by
  intro p
  induction p with
  | nil => simp [alistModify]
  | cons hd tl ih =>
    intro h
    obtain ⟨k', v'⟩ := hd
    by_cases hk : k' = u
    · rw [alistFind, if_pos hk] at h
      exact absurd h (by simp)
    · rw [alistFind, if_neg hk] at h
      simp only [List.cons_append, alistModify, List.append_eq]
      rw [if_neg hk, ih h]

theorem mem_uidsInOrder (u : String) :
    ∀ l : List String, u ∈ uidsInOrder l ↔ u ∈ l := by
  intro l
  induction l with
  | nil => simp [uidsInOrder]
  | cons x xs ih =>
    simp only [uidsInOrder, List.mem_cons, List.mem_filter]
    constructor
    · rintro (h | ⟨h1, _⟩)
      · exact Or.inl h
      · exact Or.inr (ih.mp h1)
    · rintro (h | h)
      · exact Or.inl h
      · by_cases hx : u = x
        · exact Or.inl hx
        · exact Or.inr ⟨ih.mpr h, by simp [hx]⟩

theorem uidsInOrder_nodup : ∀ l : List String, (uidsInOrder l).Nodup := by
  intro l
  induction l with
  | nil => exact List.nodup_nil
  | cons x xs ih =>
    rw [uidsInOrder]
    refine List.nodup_cons.mpr ⟨?_, List.Nodup.filter _ ih⟩
    intro hmem
    have := (List.mem_filter.mp hmem).2
    simp at this

theorem uidsInOrder_append_singleton (u : String) : ∀ l : List String,
    uidsInOrder (l ++ [u]) =
      if u ∈ l then uidsInOrder l else uidsInOrder l ++ [u] := by
  intro l
  induction l with
  | nil => simp [uidsInOrder]
  | cons x xs ih =>
    simp only [List.cons_append, uidsInOrder, List.append_eq, ih]
    by_cases hm : u ∈ xs
    · rw [if_pos hm, if_pos (List.mem_cons_of_mem _ hm)]
    · rw [if_neg hm]
      by_cases hx : u = x
      · subst hx
        rw [if_pos (List.mem_cons_self _ _)]
        simp [List.filter_append]
      · rw [if_neg ?_]
        · simp [List.filter_append, hx]
        · rw [List.mem_cons]
          rintro (h1 | h2)
          · exact hx h1
          · exact hm h2

theorem eventsFor_append (H : List (String × (Option Nat × String))) (u : String)
    (ts : List (String × String × String)) (t : String × String × String) :
    eventsFor H u (ts ++ [t]) =
      eventsFor H u ts ++
        (if t.1 = u then [(t.2.1, pathJoin (rootOf H t.1) t.2.2)] else []) := by
  unfold eventsFor
  rw [List.filterMap_append]
  congr 1
  by_cases ht : t.1 = u
  · simp [ht]
  · simp [ht]

theorem eventsFor_nil_of_not_mem (H : List (String × (Option Nat × String)))
    (u : String) (ts : List (String × String × String))
    (h : u ∉ ts.map (·.1)) : eventsFor H u ts = [] := by
  unfold eventsFor
  rw [List.filterMap_eq_nil_iff]
  intro t ht
  have hne : ¬t.1 = u := fun he => h (by rw [← he]; exact List.mem_map_of_mem (·.1) ht)
  rw [if_neg hne]

theorem liveReg_elim {H : List (String × (Option Nat × String))} {u : String}
    (h : liveReg H u = true) :
    ∃ s ro, alistFind H u = some (some s, ro) := by
  unfold liveReg at h
  rcases hf : alistFind H u with _ | ⟨href, ro⟩
  · rw [hf] at h; cases h
  · cases href with
    | none => rw [hf] at h; cases h
    | some s => exact ⟨s, ro, rfl⟩

theorem appendEvent_groupForm (H : List (String × (Option Nat × String)))
    (pre : List (String × String × String)) (u k r : String) :
    appendEvent (groupForm H pre) u (k, pathJoin (rootOf H u) r) =
      groupForm H (pre ++ [(u, k, r)]) := by
  unfold appendEvent groupForm
  rw [alistFind_keyed (fun u' => eventsFor H u' pre) u]
  rw [List.map_append]
  simp only [List.map_cons, List.map_nil]
  rw [uidsInOrder_append_singleton]
  by_cases hm : u ∈ pre.map (·.1)
  · have hmo : u ∈ uidsInOrder (pre.map (·.1)) := (mem_uidsInOrder _ _).mpr hm
    rw [if_pos hmo, if_pos hm]
    rw [if_pos (by simp : ((some (eventsFor H u pre)).isSome = true))]
    rw [alistModify_keyed (fun u' => eventsFor H u' pre) u _ _ (uidsInOrder_nodup _)]
    refine List.map_congr_left ?_
    intro a _
    rw [eventsFor_append]
    dsimp only
    by_cases hau : a = u
    · subst hau
      rw [if_pos rfl, if_pos rfl]
    · rw [if_neg hau, if_neg fun h => hau h.symm, List.append_nil]
  · have hmo : u ∉ uidsInOrder (pre.map (·.1)) :=
      fun hh => hm ((mem_uidsInOrder _ _).mp hh)
    rw [if_neg hmo, if_neg hm]
    rw [if_neg (by simp : ¬((none : Option (List Event)).isSome = true))]
    have hfn : alistFind
        ((uidsInOrder (pre.map (·.1))).map fun x => (x, eventsFor H x pre)) u =
          none := by
      rw [alistFind_keyed, if_neg hmo]
    rw [alistModify_append_notfound u _ [] _ hfn, List.map_append]
    congr 1
    · refine List.map_congr_left ?_
      intro a ha
      have hau : ¬u = a :=
        fun h => hmo (h ▸ ha)
      rw [eventsFor_append]
      dsimp only
      rw [if_neg hau, List.append_nil]
    · simp only [List.map_cons, List.map_nil]
      rw [eventsFor_append]
      dsimp only
      rw [if_pos rfl, eventsFor_nil_of_not_mem H u pre hm]

theorem runPayloads_data_group (H : List (String × (Option Nat × String)))
    (ts : List (String × String × String)) :
    ∀ (pre : List (String × String × String)) (st : WState),
      st.handlers = H → st.pending_events = groupForm H pre →
      (∀ t ∈ ts, ':' ∉ t.1.data ∧ ':' ∉ t.2.1.data ∧ liveReg H t.1 = true) →
      runPayloads st (ts.map mkDataLine) =
        ({ st with pending_events := groupForm H (pre ++ ts) }, [], none) := by
  induction ts with
  | nil =>
    intro pre st hh hp _
    rw [List.map_nil, List.append_nil, runPayloads, ← hp]
  | cons t ts ih =>
    intro pre st hh hp hts
    obtain ⟨u, k, r⟩ := t
    obtain ⟨hu, hk, hlive⟩ := hts _ (List.mem_cons_self _ _)
    obtain ⟨s, ro, hv⟩ := liveReg_elim hlive
    rw [List.map_cons, runPayloads]
    rw [on_payload_mkDataLine st u k r (some s, ro) hu hk (by rw [hh]; exact hv)]
    dsimp only
    have hroot : rootOf H u = ro := by unfold rootOf; rw [hv]
    rw [hp, hh]
    have hpj : pathJoin (some s, ro).2 r = pathJoin (rootOf H u) r := by
      rw [hroot]
    rw [hpj, appendEvent_groupForm]
    rw [ih (pre ++ [(u, k, r)]) _ rfl rfl
      (fun t ht => hts t (List.mem_cons_of_mem _ ht))]
    rw [List.nil_append, List.append_assoc, List.singleton_append]

theorem flushLoop_all_live (H : List (String × (Option Nat × String))) :
    ∀ pending : List (String × List Event),
      (∀ x ∈ pending, ∃ s ro, alistFind H x.1 = some (some s, ro)) →
      flushLoop H pending =
        (pending.map fun x => (x.1, sinkOf H x.1, x.2), none) := by
  intro pending
  induction pending with
  | nil => intro _; rfl
  | cons hd tl ih =>
    intro h
    obtain ⟨uid, evs⟩ := hd
    obtain ⟨s, ro, hfind⟩ := h _ (List.mem_cons_self _ _)
    unfold flushLoop
    rw [hfind]
    dsimp only
    rw [ih fun x hx => h x (List.mem_cons_of_mem _ hx)]
    have hs : sinkOf H uid = s := by unfold sinkOf; rw [hfind]
    rw [List.map_cons]
    dsimp only
    rw [hs]

theorem flushLoop_notifs_live (H : List (String × (Option Nat × String))) :
    ∀ pending : List (String × List Event),
      ∀ n ∈ (flushLoop H pending).1,
        ∃ ro, alistFind H n.1 = some (some n.2.1, ro) := by
  intro pending
  induction pending with
  | nil => intro n hn; cases hn
  | cons hd tl ih =>
    intro n hn
    obtain ⟨uid, evs⟩ := hd
    rcases hf : alistFind H uid with _ | ⟨href, ro⟩
    · unfold flushLoop at hn
      rw [hf] at hn
      cases hn
    · unfold flushLoop at hn
      rw [hf] at hn
      dsimp only at hn
      cases href with
      | none => exact ih n hn
      | some s =>
        rcases List.mem_cons.mp hn with h1 | h2
        · subst h1; exact ⟨ro, hf⟩
        · exact ih n h2

theorem on_payload_flush_all_live (st : WState)
    (h : ∀ x ∈ st.pending_events,
      ∃ s ro, alistFind st.handlers x.1 = some (some s, ro)) :
    on_payload st "<flush>" =
      ({ st with pending_events := [] },
        st.pending_events.map fun x => (x.1, sinkOf st.handlers x.1, x.2),
        none) := by
  unfold on_payload
  rw [if_pos rfl]
  dsimp only
  rw [flushLoop_all_live st.handlers st.pending_events h]

theorem runPayloads_append (A : List String) :
    ∀ (st : WState) (B : List String), (runPayloads st A).2.2 = none →
      runPayloads st (A ++ B) =
        ((runPayloads (runPayloads st A).1 B).1,
          (runPayloads st A).2.1 ++ (runPayloads (runPayloads st A).1 B).2.1,
          (runPayloads (runPayloads st A).1 B).2.2) := by
  induction A with
  | nil =>
    intro st B _
    rw [List.nil_append]
    rfl
  | cons l A ih =>
    intro st B herr
    rcases he : (on_payload st l).2.2 with _ | e
    · rw [runPayloads, he] at herr
      dsimp only at herr
      rw [List.cons_append, runPayloads, he]
      dsimp only
      rw [ih _ B herr]
      rw [runPayloads, he]
      dsimp only
      rw [List.append_assoc]
    · rw [runPayloads, he] at herr
      dsimp only at herr
      cases herr

end Watcher

namespace Watcher

theorem hexVal_hexDigitChar (m : Nat) (h : m < 16) :
    hexVal (hexDigitChar m) = some m := by
  interval_cases m <;> decide

theorem digitVal_digitChar (d : Nat) (h : d < 10) :
    digitVal (digitChar d) = some d := by
  interval_cases d <;> decide

theorem digitChar_ne_quote (d : Nat) (h : d < 10) : ¬digitChar d = '\"' := by
  interval_cases d <;> decide

theorem digitChar_ne_lbrack (d : Nat) (h : d < 10) : ¬digitChar d = '[' := by
  interval_cases d <;> decide

theorem digitChar_ne_dash (d : Nat) (h : d < 10) : ¬digitChar d = '-' := by
  interval_cases d <;> decide

theorem parseJStrBody_quote (X : List Char) :
    parseJStrBody ('\x22' :: X) = some ([], X) := by
  rw [parseJStrBody.eq_def]
  dsimp only
  rw [if_pos rfl]

theorem parseJStrBody_plain (c : Char) (h2 : ¬c = '\x22') (h1 : ¬c = '\\')
    (X : List Char) :
    parseJStrBody (c :: X) =
      (parseJStrBody X).map fun pr => (c :: pr.1, pr.2) := by
  rw [parseJStrBody.eq_def]
  dsimp only
  rw [if_neg h2, if_neg h1]

theorem parseJStrBody_esc2 (e d : Char) (he : ¬e = 'u')
    (hed : unescapeChar e = some d) (X : List Char) :
    parseJStrBody ('\\' :: e :: X) =
      (parseJStrBody X).map fun pr => (d :: pr.1, pr.2) := by
  rw [parseJStrBody.eq_def]
  dsimp only
  rw [if_neg (by decide : ¬ '\\' = '\x22'), if_pos rfl]
  rw [if_neg he, hed]

theorem parseJStrBody_u_escape (a b : Nat) (X : List Char) (ha : a < 16)
    (hb : b < 16) :
    parseJStrBody ('\\' :: 'u' :: '0' :: '0' ::
        hexDigitChar a :: hexDigitChar b :: X) =
      (parseJStrBody X).map fun pr => (Char.ofNat (a * 16 + b) :: pr.1, pr.2) := by
  rw [parseJStrBody.eq_def]
  dsimp only
  rw [if_neg (by decide : ¬ '\\' = '\x22'), if_pos rfl]
  rw [if_pos rfl]
  rw [show hexVal '0' = some 0 from by decide, hexVal_hexDigitChar a ha,
    hexVal_hexDigitChar b hb]
  dsimp only
  rw [show (0 : Nat) * 4096 + 0 * 256 + a * 16 + b = a * 16 + b by omega]

theorem parseJStrBody_escape (s : List Char) :
    ∀ rest : List Char,
      parseJStrBody (escapeString s ++ '\x22' :: rest) = some (s, rest) := by
  induction s with
  | nil =>
    intro rest
    rw [escapeString, List.nil_append, parseJStrBody_quote]
  | cons c cs ih =>
    intro rest
    rw [escapeString, List.append_assoc]
    unfold escapeChar
    by_cases h1 : c = '\\'
    · subst h1
      rw [if_pos rfl, List.cons_append, List.cons_append, List.nil_append]
      rw [parseJStrBody_esc2 '\\' '\\' (by decide) (by decide), ih]
      rfl
    · rw [if_neg h1]
      by_cases h2 : c = '\x22'
      · subst h2
        rw [if_pos rfl, List.cons_append, List.cons_append, List.nil_append]
        rw [parseJStrBody_esc2 '\x22' '\x22' (by decide) (by decide), ih]
        rfl
      · rw [if_neg h2]
        by_cases h3 : c = Char.ofNat 8
        · subst h3
          rw [if_pos rfl, List.cons_append, List.cons_append, List.nil_append]
          rw [parseJStrBody_esc2 'b' (Char.ofNat 8) (by decide) (by decide), ih]
          rfl
        · rw [if_neg h3]
          by_cases h4 : c = Char.ofNat 12
          · subst h4
            rw [if_pos rfl, List.cons_append, List.cons_append, List.nil_append]
            rw [parseJStrBody_esc2 'f' (Char.ofNat 12) (by decide) (by decide),
              ih]
            rfl
          · rw [if_neg h4]
            by_cases h5 : c = '\n'
            · subst h5
              rw [if_pos rfl, List.cons_append, List.cons_append,
                List.nil_append]
              rw [parseJStrBody_esc2 'n' '\n' (by decide) (by decide), ih]
              rfl
            · rw [if_neg h5]
              by_cases h6 : c = '\r'
              · subst h6
                rw [if_pos rfl, List.cons_append, List.cons_append,
                  List.nil_append]
                rw [parseJStrBody_esc2 'r' '\r' (by decide) (by decide), ih]
                rfl
              · rw [if_neg h6]
                by_cases h7 : c = '\t'
                · subst h7
                  rw [if_pos rfl, List.cons_append, List.cons_append,
                    List.nil_append]
                  rw [parseJStrBody_esc2 't' '\t' (by decide) (by decide), ih]
                  rfl
                · rw [if_neg h7]
                  by_cases h8 : c.toNat < 32
                  · rw [if_pos h8]
                    simp only [List.cons_append, List.nil_append]
                    rw [parseJStrBody_u_escape _ _ _ (by omega)
                      (Nat.mod_lt _ (by omega))]
                    rw [show c.toNat / 16 * 16 + c.toNat % 16 = c.toNat from
                      by omega]
                    rw [Char.ofNat_toNat, ih]
                    rfl
                  · rw [if_neg h8]
                    rw [List.cons_append, List.nil_append]
                    rw [parseJStrBody_plain c h2 h1, ih]
                    rfl

theorem parseJString_dump (s : String) (rest : List Char) :
    parseJString (dumpString s ++ rest) = some (s, rest) := by
  rw [dumpString, List.cons_append, List.append_assoc, List.singleton_append]
  rw [parseJString.eq_def]
  dsimp only
  rw [if_pos rfl, parseJStrBody_escape]
  rfl

theorem natToDigitsAux_eq_map :
    ∀ fuel n : Nat, natToDigitsAux fuel n = (toDigitNats fuel n).map digitChar := by
  intro fuel
  induction fuel with
  | zero => intro n; rfl
  | succ f ih =>
    intro n
    rw [natToDigitsAux, toDigitNats]
    by_cases h : n < 10
    · rw [if_pos h, if_pos h]
      rfl
    · rw [if_neg h, if_neg h, List.map_append, ih]
      rfl

theorem toDigitNats_lt10 :
    ∀ fuel n : Nat, n ≤ fuel → ∀ d ∈ toDigitNats fuel n, d < 10 := by
  intro fuel
  induction fuel with
  | zero =>
    intro n hn d hd
    rw [toDigitNats] at hd
    simp at hd
    omega
  | succ f ih =>
    intro n hn d hd
    rw [toDigitNats] at hd
    by_cases h : n < 10
    · rw [if_pos h] at hd
      simp at hd
      omega
    · rw [if_neg h] at hd
      rcases List.mem_append.mp hd with h1 | h2
      · exact ih (n / 10) (by omega) d h1
      · simp at h2
        omega

theorem toDigitNats_ne_nil (fuel n : Nat) : toDigitNats fuel n ≠ [] := by
  cases fuel with
  | zero => simp [toDigitNats]
  | succ f =>
    rw [toDigitNats]
    by_cases h : n < 10
    · rw [if_pos h]; simp
    · rw [if_neg h]; simp

theorem digitsToNat_append (ds : List Nat) (d : Nat) :
    digitsToNat (ds ++ [d]) = digitsToNat ds * 10 + d := by
  unfold digitsToNat
  rw [List.foldl_append]
  rfl

theorem digitsToNat_toDigitNats :
    ∀ fuel n : Nat, digitsToNat (toDigitNats fuel n) = n := by
  intro fuel
  induction fuel with
  | zero =>
    intro n
    rw [toDigitNats]
    dsimp [digitsToNat]
    omega
  | succ f ih =>
    intro n
    rw [toDigitNats]
    by_cases h : n < 10
    · rw [if_pos h]
      dsimp [digitsToNat]
      omega
    · rw [if_neg h, digitsToNat_append, ih]
      omega

theorem takeDigits_digitChars :
    ∀ ds : List Nat, (∀ d ∈ ds, d < 10) →
      ∀ rest : List Char, takeDigits rest = ([], rest) →
      takeDigits (ds.map digitChar ++ rest) = (ds, rest) := by
  intro ds
  induction ds with
  | nil =>
    intro _ rest hrest
    simpa using hrest
  | cons d ds ih =>
    intro hd rest hrest
    rw [List.map_cons, List.cons_append]
    rw [takeDigits.eq_def]
    dsimp only
    rw [digitVal_digitChar d (hd d (List.mem_cons_self _ _))]
    rw [ih (fun d hd' => hd d (List.mem_cons_of_mem _ hd')) rest hrest]

theorem takeDigits_natToDigits (n : Nat) (rest : List Char)
    (hrest : takeDigits rest = ([], rest)) :
    takeDigits (natToDigits n ++ rest) = (toDigitNats n n, rest) := by
  rw [natToDigits, natToDigitsAux_eq_map]
  exact takeDigits_digitChars _ (toDigitNats_lt10 n n (Nat.le_refl n)) rest hrest

theorem parseJInt_dump (m : Int) (rest : List Char)
    (hrest : takeDigits rest = ([], rest)) :
    parseJInt (dumpInt m ++ rest) = some (m, rest) := by
  obtain ⟨d0, ds, hds⟩ :=
    List.exists_cons_of_ne_nil (toDigitNats_ne_nil m.natAbs m.natAbs)
  have hd0 : d0 < 10 := toDigitNats_lt10 m.natAbs m.natAbs (Nat.le_refl _) d0
    (by rw [hds]; exact List.mem_cons_self _ _)
  have htd : takeDigits (natToDigits m.natAbs ++ rest) =
      (d0 :: ds, rest) := by
    rw [takeDigits_natToDigits m.natAbs rest hrest, hds]
  have hvd : digitsToNat (d0 :: ds) = m.natAbs := by
    rw [← hds, digitsToNat_toDigitNats]
  have hmap : natToDigits m.natAbs = digitChar d0 :: ds.map digitChar := by
    rw [natToDigits, natToDigitsAux_eq_map, hds, List.map_cons]
  unfold dumpInt
  by_cases hm : m < 0
  · rw [if_pos hm, List.cons_append]
    rw [parseJInt.eq_def]
    dsimp only
    rw [if_pos rfl, htd]
    dsimp only
    rw [hvd]
    congr 1
    congr 1
    omega
  · rw [if_neg hm, hmap, List.cons_append]
    rw [parseJInt.eq_def]
    dsimp only
    rw [if_neg (digitChar_ne_dash d0 hd0)]
    rw [← List.cons_append, ← hmap, htd]
    dsimp only
    rw [hvd]
    congr 1
    congr 1
    omega

theorem dumpArrElems_length_ge :
    ∀ (xs : List String) (x : String),
      xs.length ≤ (dumpArrElems (x :: xs)).length := by
  intro xs
  induction xs with
  | nil => intro x; exact Nat.zero_le _
  | cons y ys ih =>
    intro x
    rw [dumpArrElems]
    simp only [List.length_append, List.length_cons]
    have := ih y
    omega

theorem parseStrArrayElemsF_dump :
    ∀ (xs : List String) (x : String) (fuel : Nat) (rest : List Char),
      xs.length + 1 ≤ fuel →
      parseStrArrayElemsF fuel (dumpArrElems (x :: xs) ++ ']' :: rest) =
        some (x :: xs, rest) := by
  intro xs
  induction xs with
  | nil =>
    intro x fuel rest hf
    obtain ⟨f, rfl⟩ : ∃ f, fuel = f + 1 := ⟨fuel - 1, by omega⟩
    rw [dumpArrElems]
    rw [parseStrArrayElemsF.eq_def]
    dsimp only
    rw [parseJString_dump]
    dsimp only
    rw [if_neg (by decide : ¬ ']' = ','), if_pos rfl]
  | cons y ys ih =>
    intro x fuel rest hf
    obtain ⟨f, rfl⟩ : ∃ f, fuel = f + 1 := ⟨fuel - 1, by omega⟩
    rw [dumpArrElems, List.append_assoc, List.cons_append]
    rw [parseStrArrayElemsF.eq_def]
    dsimp only
    rw [parseJString_dump]
    dsimp only
    rw [if_pos rfl]
    rw [ih y f rest (by simp at hf; omega)]

theorem parseStrArray_dump (xs : List String) (rest : List Char) :
    parseStrArray (dumpAtom (.jarr xs) ++ rest) = some (xs, rest) := by
  cases xs with
  | nil =>
    rw [dumpAtom]
    simp only [dumpArrElems, List.nil_append, List.cons_append]
    rw [parseStrArray.eq_def]
    dsimp only
    rw [if_pos rfl, if_pos rfl]
  | cons x xs =>
    simp only [dumpAtom, List.cons_append, List.append_assoc,
      List.singleton_append]
    obtain ⟨T, hT⟩ : ∃ T, dumpArrElems (x :: xs) = '\"' :: T := by
      cases xs with
      | nil =>
        rw [dumpArrElems, dumpString]
        exact ⟨_, rfl⟩
      | cons y ys =>
        rw [dumpArrElems, dumpString, List.cons_append]
        exact ⟨_, rfl⟩
    rw [parseStrArray.eq_def]
    dsimp only
    rw [if_pos rfl]
    rw [hT, List.cons_append]
    dsimp only
    rw [if_neg (by decide : ¬ '\"' = ']')]
    rw [← List.cons_append, ← hT]
    refine parseStrArrayElemsF_dump xs x _ rest ?_
    have h1 := dumpArrElems_length_ge xs x
    rw [List.length_append, List.length_cons]
    omega

theorem parseAtom_cons (c : Char) (X : List Char) :
    parseAtom (c :: X) =
      if c = '\"' then
        (parseJString (c :: X)).map fun pr => (JAtom.jstr pr.1, pr.2)
      else if c = '[' then
        (parseStrArray (c :: X)).map fun pr => (JAtom.jarr pr.1, pr.2)
      else (parseJInt (c :: X)).map fun pr => (JAtom.jint pr.1, pr.2) := rfl

theorem parseAtom_dump (a : JAtom) (rest : List Char)
    (hrest : takeDigits rest = ([], rest)) :
    parseAtom (dumpAtom a ++ rest) = some (a, rest) := by
  cases a with
  | jstr s =>
    rw [dumpAtom, dumpString, List.cons_append]
    rw [parseAtom_cons]
    rw [if_pos rfl]
    rw [← List.cons_append, ← dumpString, parseJString_dump]
    rfl
  | jint n =>
    rw [dumpAtom]
    obtain ⟨d0, ds, hds⟩ :=
      List.exists_cons_of_ne_nil (toDigitNats_ne_nil n.natAbs n.natAbs)
    have hd0 : d0 < 10 := toDigitNats_lt10 n.natAbs n.natAbs (Nat.le_refl _) d0
      (by rw [hds]; exact List.mem_cons_self _ _)
    have hmap : natToDigits n.natAbs = digitChar d0 :: ds.map digitChar := by
      rw [natToDigits, natToDigitsAux_eq_map, hds, List.map_cons]
    by_cases hm : n < 0
    · rw [show dumpInt n = '-' :: natToDigits n.natAbs from by
        rw [dumpInt, if_pos hm]]
      rw [List.cons_append]
      rw [parseAtom_cons]
      rw [if_neg (by decide : ¬ '-' = '\"'), if_neg (by decide : ¬ '-' = '[')]
      rw [← List.cons_append,
        ← show dumpInt n = '-' :: natToDigits n.natAbs from by
          rw [dumpInt, if_pos hm]]
      rw [parseJInt_dump n rest hrest]
      rfl
    · rw [show dumpInt n = natToDigits n.natAbs from by rw [dumpInt, if_neg hm]]
      rw [hmap, List.cons_append]
      rw [parseAtom_cons]
      rw [if_neg (digitChar_ne_quote d0 hd0),
        if_neg (digitChar_ne_lbrack d0 hd0)]
      rw [← List.cons_append, ← hmap,
        ← show dumpInt n = natToDigits n.natAbs from by rw [dumpInt, if_neg hm]]
      rw [parseJInt_dump n rest hrest]
      rfl
  | jarr xs =>
    rw [dumpAtom]
    simp only [List.cons_append]
    rw [parseAtom_cons]
    rw [if_neg (by decide : ¬ '[' = '\"'), if_pos rfl]
    have hps : parseStrArray ('[' :: ((dumpArrElems xs ++ [']']) ++ rest)) =
        some (xs, rest) := by
      have hgen := parseStrArray_dump xs rest
      rw [dumpAtom] at hgen
      simp only [List.cons_append] at hgen
      exact hgen
    rw [hps]
    rfl

theorem digitChar_ne_lbrace (d : Nat) (h : d < 10) : ¬digitChar d = lbrace := by
  interval_cases d <;> decide

theorem takeDigits_nondigit (c : Char) (h : digitVal c = none)
    (rest : List Char) : takeDigits (c :: rest) = ([], c :: rest) := by
  rw [takeDigits.eq_def]
  dsimp only
  rw [h]

theorem dumpAtomFields_length_ge :
    ∀ fs : List (String × JAtom), fs.length ≤ (dumpAtomFields fs).length := by
  intro fs
  match fs with
  | [] => exact Nat.zero_le _
  | [(k, v)] =>
    rw [dumpAtomFields]
    simp only [List.length_append, List.length_cons, List.length_nil]
    omega
  | (k, v) :: f2 :: fs' =>
    rw [dumpAtomFields]
    simp only [List.length_append, List.length_cons]
    have := dumpAtomFields_length_ge (f2 :: fs')
    simp only [List.length_cons] at this
    omega

theorem parseAtomFieldsF_dump :
    ∀ (fs : List (String × JAtom)) (f1 : String × JAtom) (fuel : Nat)
      (rest : List Char), fs.length + 1 ≤ fuel →
      parseAtomFieldsF fuel (dumpAtomFields (f1 :: fs) ++ rbrace :: rest) =
        some (f1 :: fs, rest) := by
  intro fs
  induction fs with
  | nil =>
    intro f1 fuel rest hf
    obtain ⟨f, rfl⟩ : ∃ f, fuel = f + 1 := ⟨fuel - 1, by omega⟩
    obtain ⟨k, v⟩ := f1
    rw [dumpAtomFields]
    simp only [List.append_assoc, List.cons_append]
    rw [parseAtomFieldsF.eq_def]
    dsimp only
    rw [parseJString_dump]
    dsimp only
    rw [if_pos rfl]
    rw [parseAtom_dump v (rbrace :: rest)
      (takeDigits_nondigit rbrace (by decide) rest)]
    dsimp only
    rw [if_neg (by decide : ¬rbrace = ','), if_pos rfl]
  | cons f2 fs ih =>
    intro f1 fuel rest hf
    obtain ⟨f, rfl⟩ : ∃ f, fuel = f + 1 := ⟨fuel - 1, by omega⟩
    obtain ⟨k, v⟩ := f1
    rw [dumpAtomFields]
    simp only [List.append_assoc, List.cons_append]
    rw [parseAtomFieldsF.eq_def]
    dsimp only
    rw [parseJString_dump]
    dsimp only
    rw [if_pos rfl]
    rw [parseAtom_dump v _ (takeDigits_nondigit ',' (by decide) _)]
    dsimp only
    rw [if_pos rfl]
    rw [ih f2 f rest (by simp only [List.length_cons] at hf ⊢; omega)]
    rfl

theorem parseAtomObj_cons2 (c c2 : Char) (X2 : List Char) :
    parseAtomObj (c :: c2 :: X2) =
      if c = lbrace then
        (if c2 = rbrace then some ([], X2)
          else parseAtomFieldsF ((c2 :: X2).length + 1) (c2 :: X2))
      else none := rfl

theorem parseAtomObj_dump (fs : List (String × JAtom)) (rest : List Char) :
    parseAtomObj (dumpAtomObj fs ++ rest) = some (fs, rest) := by
  cases fs with
  | nil =>
    rw [dumpAtomObj, dumpAtomFields]
    simp only [List.cons_append, List.nil_append]
    rw [parseAtomObj_cons2]
    rw [if_pos rfl, if_pos rfl]
  | cons f1 fs =>
    rw [dumpAtomObj]
    obtain ⟨T, hT⟩ : ∃ T, dumpAtomFields (f1 :: fs) = '\"' :: T := by
      obtain ⟨k, v⟩ := f1
      cases fs with
      | nil =>
        rw [dumpAtomFields, dumpString]
        simp only [List.cons_append]
        exact ⟨_, rfl⟩
      | cons f2 fs' =>
        rw [dumpAtomFields, dumpString]
        simp only [List.cons_append]
        exact ⟨_, rfl⟩
    rw [hT]
    simp only [List.cons_append]
    rw [parseAtomObj_cons2]
    rw [if_pos rfl, if_neg (by decide : ¬ '\"' = rbrace)]
    have harg : ('\"' : Char) :: ((T ++ [rbrace]) ++ rest) =
        dumpAtomFields (f1 :: fs) ++ rbrace :: rest := by
      rw [hT]
      simp only [List.cons_append, List.append_assoc, List.singleton_append,
        List.nil_append]
    rw [harg]
    refine parseAtomFieldsF_dump fs f1 _ rest ?_
    have hlen := dumpAtomFields_length_ge (f1 :: fs)
    simp only [List.length_cons] at hlen
    rw [List.length_append, List.length_cons]
    omega

theorem dumpAtom_head (a : JAtom) :
    ∃ c X, dumpAtom a = c :: X ∧ ¬c = lbrace := by
  cases a with
  | jstr s => exact ⟨'\"', _, by rw [dumpAtom, dumpString], by decide⟩
  | jarr xs =>
    exact ⟨'[', dumpArrElems xs ++ [']'],
      by rw [dumpAtom]; simp only [List.cons_append], by decide⟩
  | jint n =>
    by_cases hm : n < 0
    · refine ⟨'-', natToDigits n.natAbs, ?_, by decide⟩
      rw [dumpAtom, dumpInt, if_pos hm]
    · obtain ⟨d0, ds, hds⟩ :=
        List.exists_cons_of_ne_nil (toDigitNats_ne_nil n.natAbs n.natAbs)
      have hd0 : d0 < 10 := toDigitNats_lt10 _ _ (Nat.le_refl _) d0
        (by rw [hds]; exact List.mem_cons_self _ _)
      refine ⟨digitChar d0, ds.map digitChar, ?_, digitChar_ne_lbrace d0 hd0⟩
      rw [dumpAtom, dumpInt, if_neg hm, natToDigits, natToDigitsAux_eq_map,
        hds, List.map_cons]

theorem parseJVal_cons (c : Char) (X : List Char) :
    parseJVal (c :: X) =
      if c = lbrace then
        (parseAtomObj (c :: X)).map fun pr => (JVal.obj pr.1, pr.2)
      else (parseAtom (c :: X)).map fun pr => (JVal.atom pr.1, pr.2) := rfl

theorem parseJVal_dump (v : JVal) (rest : List Char)
    (hrest : takeDigits rest = ([], rest)) :
    parseJVal (dumpJVal v ++ rest) = some (v, rest) := by
  cases v with
  | atom a =>
    obtain ⟨c0, X0, hEq, hne⟩ := dumpAtom_head a
    rw [dumpJVal, hEq, List.cons_append, parseJVal_cons, if_neg hne,
      ← List.cons_append, ← hEq, parseAtom_dump a rest hrest]
    rfl
  | obj fs =>
    rw [dumpJVal, dumpAtomObj]
    simp only [List.cons_append]
    rw [parseJVal_cons, if_pos rfl]
    have harg : (lbrace :: ((dumpAtomFields fs ++ [rbrace]) ++ rest)) =
        dumpAtomObj fs ++ rest := by
      rw [dumpAtomObj]
      simp only [List.cons_append]
    rw [harg, parseAtomObj_dump]
    rfl

theorem dumpTopFields_length_ge :
    ∀ fs : List (String × JVal), fs.length ≤ (dumpTopFields fs).length := by
  intro fs
  match fs with
  | [] => exact Nat.zero_le _
  | [(k, v)] =>
    rw [dumpTopFields]
    simp only [List.length_append, List.length_cons, List.length_nil]
    omega
  | (k, v) :: f2 :: fs' =>
    rw [dumpTopFields]
    simp only [List.length_append, List.length_cons]
    have := dumpTopFields_length_ge (f2 :: fs')
    simp only [List.length_cons] at this
    omega

theorem parseTopFieldsF_dump :
    ∀ (fs : List (String × JVal)) (f1 : String × JVal) (fuel : Nat)
      (rest : List Char), fs.length + 1 ≤ fuel →
      parseTopFieldsF fuel (dumpTopFields (f1 :: fs) ++ rbrace :: rest) =
        some (f1 :: fs, rest) := by
  intro fs
  induction fs with
  | nil =>
    intro f1 fuel rest hf
    obtain ⟨f, rfl⟩ : ∃ f, fuel = f + 1 := ⟨fuel - 1, by omega⟩
    obtain ⟨k, v⟩ := f1
    rw [dumpTopFields]
    simp only [List.append_assoc, List.cons_append]
    rw [parseTopFieldsF.eq_def]
    dsimp only
    rw [parseJString_dump]
    dsimp only
    rw [if_pos rfl]
    rw [parseJVal_dump v (rbrace :: rest)
      (takeDigits_nondigit rbrace (by decide) rest)]
    dsimp only
    rw [if_neg (by decide : ¬rbrace = ','), if_pos rfl]
  | cons f2 fs ih =>
    intro f1 fuel rest hf
    obtain ⟨f, rfl⟩ : ∃ f, fuel = f + 1 := ⟨fuel - 1, by omega⟩
    obtain ⟨k, v⟩ := f1
    rw [dumpTopFields]
    simp only [List.append_assoc, List.cons_append]
    rw [parseTopFieldsF.eq_def]
    dsimp only
    rw [parseJString_dump]
    dsimp only
    rw [if_pos rfl]
    rw [parseJVal_dump v _ (takeDigits_nondigit ',' (by decide) _)]
    dsimp only
    rw [if_pos rfl]
    rw [ih f2 f rest (by simp only [List.length_cons] at hf ⊢; omega)]
    rfl

theorem parseTop_cons2 (c c2 : Char) (X2 : List Char) :
    parseTop (String.mk (c :: c2 :: X2)) =
      if c = lbrace then
        (if c2 = rbrace then (if X2 = [] then some [] else none)
          else
            match parseTopFieldsF ((c2 :: X2).length + 1) (c2 :: X2) with
            | some (fs, rest3) => if rest3 = [] then some fs else none
            | none => none)
      else none := rfl

theorem parseTop_to_json (fields : List (String × JVal)) :
    parseTop (to_json fields) = some fields := by
  cases fields with
  | nil => decide
  | cons f1 fs =>
    rw [to_json]
    obtain ⟨T, hT⟩ : ∃ T, dumpTopFields (f1 :: fs) = '\"' :: T := by
      obtain ⟨k, v⟩ := f1
      cases fs with
      | nil =>
        rw [dumpTopFields, dumpString]
        simp only [List.cons_append]
        exact ⟨_, rfl⟩
      | cons f2 fs' =>
        rw [dumpTopFields, dumpString]
        simp only [List.cons_append]
        exact ⟨_, rfl⟩
    rw [hT]
    simp only [List.cons_append]
    rw [parseTop_cons2]
    rw [if_pos rfl, if_neg (by decide : ¬ '\"' = rbrace)]
    have harg : ('\"' : Char) :: (T ++ [rbrace]) =
        dumpTopFields (f1 :: fs) ++ rbrace :: [] := by
      rw [hT]
      simp only [List.cons_append]
    rw [harg]
    rw [parseTopFieldsF_dump fs f1 _ []
      (by
        have hlen := dumpTopFields_length_ge (f1 :: fs)
        simp only [List.length_cons] at hlen
        rw [List.length_append, List.length_cons]
        omega)]
    dsimp only
    rw [if_pos rfl]

theorem flushLoop_err_none (handlers : List (String × (Option Nat × String))) :
    ∀ pending : List (String × List Event),
      (∀ x ∈ pending, (alistFind handlers x.1).isSome = true) →
      (flushLoop handlers pending).2 = none := by
  intro pending
  induction pending with
  | nil => intro _; rfl
  | cons hd tl ih =>
    intro h
    obtain ⟨uid, events⟩ := hd
    have hhd := h (uid, events) (List.mem_cons_self _ _)
    obtain ⟨⟨href, root⟩, hv⟩ := Option.isSome_iff_exists.mp hhd
    have htl : ∀ x ∈ tl, (alistFind handlers x.1).isSome = true :=
      fun x hx => h x (List.mem_cons_of_mem _ hx)
    unfold flushLoop
    rw [hv]
    dsimp only
    cases href with
    | none => exact ih htl
    | some sink => exact ih htl

theorem on_payload_flush_err_none (st : WState)
    (h : ∀ x ∈ st.pending_events, (alistFind st.handlers x.1).isSome = true) :
    (on_payload st "<flush>").2.2 = none := by
  unfold on_payload
  rw [if_pos rfl]
  dsimp only
  rw [flushLoop_err_none st.handlers st.pending_events h]

end Watcher

namespace Watcher

/-- C7: a line containing no colon (and which is not the flush sentinel) is
logged and dropped: the state — in particular every pending batch — is
unchanged, no notification is produced and no exception is raised. -/
theorem no_colon_line_dropped (st : WState) (payload : String)
    (hf : payload ≠ "<flush>") (hc : ':' ∉ payload.data) :
    on_payload st payload = (st, [], none) := by
  unfold on_payload
  rw [if_neg hf, if_neg hc]

/-- C7 witness: the line `"garbage"` on a state with a queued batch. -/
theorem no_colon_line_dropped_witness :
    ("garbage" ≠ "<flush>" ∧ ':' ∉ "garbage".data) ∧
      on_payload { initState with pending_events := [("1", [("change", "/r/a")])] }
        "garbage" =
      ({ initState with pending_events := [("1", [("change", "/r/a")])] }, [],
        none) := by
  refine ⟨by decide, no_colon_line_dropped _ _ (by decide) (by decide)⟩

/-- C9: the payload `"1:change"` contains a colon, so it passes the no-colon
guard, but `payload.split(':', 2)` yields only two fields and the three-way
tuple unpacking raises an (unhandled) `ValueError`. -/
theorem one_colon_line_raises_valueError :
    ':' ∈ "1:change".data ∧
      on_payload initState "1:change" = (initState, [], some PyErr.valueError) := by
  constructor
  · decide
  · decide

/-- C10: `on_payload` raises `KeyError` from the `_handlers` table on both
branches: (a) a data line whose uid was never registered raises at the
`self._handlers[uid]` lookup, after having already inserted an empty pending
list for that uid; (b) a flush raises at the handler lookup when a uid with
queued events is no longer registered, leaving the pending map uncleared. -/
theorem unknown_uid_raises_keyError :
    on_payload initState "5:change:x" =
        ({ initState with pending_events := [("5", [])] }, [],
          some PyErr.keyError) ∧
      on_payload { initState with pending_events := [("5", [("change", "/r/x")])] }
          "<flush>" =
        ({ initState with pending_events := [("5", [("change", "/r/x")])] },
          [], some PyErr.keyError) := by
  constructor
  · decide
  · decide

/-- C1: queuing any sequence of data lines for registered, live sinks and
then flushing delivers, per watch id holding queued events, exactly one
notification with that id's events as `(kind, root_path ++ relative path)`
pairs in FIFO arrival order, grouped by watch id — and nothing else: the run
produces exactly the spec's batches, the watch ids notified are pairwise
distinct, and the pending map ends empty. -/
theorem batching_delivers_grouped_fifo
    (H : List (String × (Option Nat × String)))
    (ts : List (String × String × String))
    (hts : ∀ t ∈ ts, ':' ∉ t.1.data ∧ ':' ∉ t.2.1.data ∧ liveReg H t.1 = true) :
    runPayloads { initState with handlers := H }
        (ts.map mkDataLine ++ ["<flush>"]) =
      ({ initState with handlers := H }, specBatches H ts, none) ∧
    ((specBatches H ts).map (·.1)).Nodup := by
  have hdata := runPayloads_data_group H ts [] { initState with handlers := H }
    rfl rfl hts
  rw [List.nil_append] at hdata
  have hlive : ∀ x ∈ groupForm H ts,
      ∃ s ro, alistFind H x.1 = some (some s, ro) := by
    intro x hx
    unfold groupForm at hx
    obtain ⟨u, hu, hxu⟩ := List.mem_map.mp hx
    have humem : u ∈ ts.map (·.1) := (mem_uidsInOrder _ _).mp hu
    obtain ⟨t, ht, htu⟩ := List.mem_map.mp humem
    obtain ⟨s, ro, hf⟩ := liveReg_elim (hts t ht).2.2
    subst htu
    rw [← hxu]
    exact ⟨s, ro, hf⟩
  have hspec : (groupForm H ts).map (fun x => (x.1, sinkOf H x.1, x.2)) =
      specBatches H ts := by
    unfold groupForm specBatches
    rw [List.map_map]
    rfl
  constructor
  · have hflushEq := on_payload_flush_all_live
      { initState with handlers := H, pending_events := groupForm H ts } hlive
    have hsingle : runPayloads
        ({ initState with handlers := H, pending_events := groupForm H ts })
          ["<flush>"] =
        ({ initState with handlers := H },
          (groupForm H ts).map (fun x => (x.1, sinkOf H x.1, x.2)), none) := by
      rw [runPayloads, hflushEq]
      dsimp only
      rw [runPayloads]
      dsimp only
      rw [List.append_nil]
      rfl
    have herr0 : (runPayloads { initState with handlers := H }
        (ts.map mkDataLine)).2.2 = none := by
      rw [hdata]
    rw [runPayloads_append (ts.map mkDataLine) { initState with handlers := H }
      ["<flush>"] herr0]
    rw [hdata]
    dsimp only
    rw [hsingle, List.nil_append, hspec]
  · unfold specBatches
    rw [List.map_map]
    have hid : ((·.1) ∘ fun u => (u, sinkOf H u, eventsFor H u ts)) =
        (id : String → String) := rfl
    rw [hid, List.map_id]
    exact uidsInOrder_nodup _

/-- C1 witness: the spec's worked example — lines `1:change:a/b.txt`,
`1:create:a/c.txt`, `2:delete:x.txt`, then the flush — delivering exactly
`[(change, root1/a/b.txt), (create, root1/a/c.txt)]` to sink 1 and
`[(delete, root2/x.txt)]` to sink 2. -/
theorem batching_delivers_grouped_fifo_witness :
    (∀ t ∈ exLines, ':' ∉ t.1.data ∧ ':' ∉ t.2.1.data ∧
        liveReg exHandlers t.1 = true) ∧
      (runPayloads { initState with handlers := exHandlers }
          (exLines.map mkDataLine ++ ["<flush>"]) =
          ({ initState with handlers := exHandlers },
            specBatches exHandlers exLines, none) ∧
        ((specBatches exHandlers exLines).map (·.1)).Nodup) ∧
      specBatches exHandlers exLines =
        [("1", 1, [("change", "root1/a/b.txt"), ("create", "root1/a/c.txt")]),
          ("2", 2, [("delete", "root2/x.txt")])] :=
  ⟨by decide, batching_delivers_grouped_fifo exHandlers exLines (by decide),
    by decide⟩

/-- C6: when every pending uid is still registered, a flush clears the
pending map in full — also for uids whose sink died — raises nothing, and
delivers no notification for a uid whose weak sink reference is dead. -/
theorem stale_sink_batch_dropped (st : WState)
    (h : ∀ x ∈ st.pending_events, (alistFind st.handlers x.1).isSome = true) :
    (on_payload st "<flush>").1.pending_events = [] ∧
      (on_payload st "<flush>").2.2 = none ∧
      ∀ u ro, alistFind st.handlers u = some (none, ro) →
        ∀ n ∈ (on_payload st "<flush>").2.1, ¬n.1 = u := by
  have herr := flushLoop_err_none st.handlers st.pending_events h
  have hnotifs : (on_payload st "<flush>").2.1 =
      (flushLoop st.handlers st.pending_events).1 := by
    unfold on_payload
    rw [if_pos rfl]
    dsimp only
    rw [herr]
  refine ⟨?_, on_payload_flush_err_none st h, ?_⟩
  · unfold on_payload
    rw [if_pos rfl]
    dsimp only
    rw [herr]
  · intro u ro hdead n hn
    rw [hnotifs] at hn
    obtain ⟨ro', hlivef⟩ :=
      flushLoop_notifs_live st.handlers st.pending_events n hn
    intro hnu
    rw [hnu, hdead] at hlivef
    simp at hlivef

/-- C6 witness: a flush over one dead-sink uid ("1") and one live one ("2"):
pending map fully cleared, nothing raised, no notification carries uid 1. -/
theorem stale_sink_batch_dropped_witness :
    (∀ x ∈ mixedFlushState.pending_events,
        (alistFind mixedFlushState.handlers x.1).isSome = true) ∧
      (on_payload mixedFlushState "<flush>").1.pending_events = [] ∧
      (on_payload mixedFlushState "<flush>").2.2 = none ∧
      ∀ n ∈ (on_payload mixedFlushState "<flush>").2.1, ¬n.1 = "1" :=
  ⟨by decide,
    (stale_sink_batch_dropped mixedFlushState (by decide)).1,
    (stale_sink_batch_dropped mixedFlushState (by decide)).2.1,
    (stale_sink_batch_dropped mixedFlushState (by decide)).2.2 "1" "/r1"
      (by decide)⟩

/-- C5: over every sequence of register/unregister calls (interleaved
arbitrarily, whatever the spawn outcomes), the WatchIds handed out by the
successive register calls are pairwise strictly increasing — in particular no
id is ever assigned twice, so an id is never reused after its registration is
removed. -/
theorem watch_ids_strictly_increasing (ops : List Op) :
    List.Pairwise (· < ·) (assignedIds initState ops) :=
  assignedIds_pairwise ops initState

/-- C2: after each call of a valid register/unregister sequence (spawns
succeed, unregisters name currently-registered ids), the transport exists iff
the registry is non-empty. -/
theorem transport_iff_nonempty_registry (ops : List Op) (n : Nat)
    (h : validRun initState ops = true) :
    transportInvariant (runOps initState (List.take n ops)) :=
  validRun_inv _ _ transportInvariant_init (validRun_take ops initState n h)

/-- C2 witness: register twice, then unregister both, checked after the third
call. -/
theorem transport_iff_nonempty_registry_witness :
    validRun initState
        [.reg "/a" [] [] [] (some 0) true, .reg "/b" [] [] [] (some 1) true,
          .unreg 1, .unreg 2] = true ∧
      transportInvariant (runOps initState (List.take 3
        [.reg "/a" [] [] [] (some 0) true, .reg "/b" [] [] [] (some 1) true,
          .unreg 1, .unreg 2])) :=
  ⟨by decide, transport_iff_nonempty_registry _ 3 (by decide)⟩

/-- C3 counterexample: when the spawn fails during the very first
registration, `_start_process`'s `RuntimeError` propagates out of
`register_watcher` to the host caller — an exception does cross the
controller's public boundary. -/
theorem spawn_failure_escapes :
    (register_watcher initState "/ws" [] [] [] (some 0) false).2.2 =
      some PyErr.runtimeError := by
  decide

/-- C3 amended: the guarded failure paths — invalid no-colon lines, stale
sinks at flush, unregister without a transport — only log and raise nothing,
but a spawn failure during a register that must start the process raises a
`RuntimeError` that propagates to the host caller. -/
theorem controller_error_containment :
    (∀ (st : WState) (root : String) (p e i : List String) (hnd : Option Nat),
        st.transport = none →
        (register_watcher st root p e i hnd false).2.2 =
          some PyErr.runtimeError) ∧
      (∀ (st : WState) (payload : String), payload ≠ "<flush>" →
        ':' ∉ payload.data → (on_payload st payload).2.2 = none) ∧
      (∀ st : WState,
        (∀ x ∈ st.pending_events, (alistFind st.handlers x.1).isSome = true) →
        (on_payload st "<flush>").2.2 = none) ∧
      (∀ (st : WState) (id : Nat),
        (alistFind st.handlers (toString id)).isSome = true →
        st.transport = none → (on_watcher_removed st id).2 = none) := by
  refine ⟨?_, ?_, ?_, ?_⟩
  · intro st root p e i hnd htr
    unfold register_watcher on_watcher_added startProcess
    dsimp only
    simp only [htr]
    rw [if_pos ⟨alistUpsert_ne_nil _ _ _, trivial⟩]
    rfl
  · intro st payload hf hc
    unfold on_payload
    rw [if_neg hf, if_neg hc]
  · intro st h
    exact on_payload_flush_err_none st h
  · intro st id hfind htr
    obtain ⟨v, hv⟩ := Option.isSome_iff_exists.mp hfind
    unfold on_watcher_removed
    rw [hv]
    dsimp only
    rw [if_pos htr]

/-- C3 amended witness: each of the four paths exercised at a concrete
input. -/
theorem controller_error_containment_witness :
    (initState.transport = none ∧
        (register_watcher initState "/ws" ["*"] ["change"] [] (some 7)
            false).2.2 = some PyErr.runtimeError) ∧
      (("nocolon" ≠ "<flush>" ∧ ':' ∉ "nocolon".data) ∧
        (on_payload initState "nocolon").2.2 = none) ∧
      ((∀ x ∈ staleFlushState.pending_events,
          (alistFind staleFlushState.handlers x.1).isSome = true) ∧
        (on_payload staleFlushState "<flush>").2.2 = none) ∧
      (((alistFind soloRegState.handlers (toString 3)).isSome = true ∧
          soloRegState.transport = none) ∧
        (on_watcher_removed soloRegState 3).2 = none) :=
  ⟨⟨by decide, controller_error_containment.1 initState "/ws" ["*"] ["change"]
      [] (some 7) (by decide)⟩,
    ⟨⟨by decide, by decide⟩,
      controller_error_containment.2.1 initState "nocolon" (by decide) (by decide)⟩,
    ⟨by decide, controller_error_containment.2.2.1 staleFlushState (by decide)⟩,
    ⟨⟨by decide, by decide⟩,
      controller_error_containment.2.2.2 soloRegState 3 (by decide) (by decide)⟩⟩

/-- C8: the serialized register command round-trips: parsing the single line
`_to_json` emits for `{cwd, events, ignores, patterns, uid}` reconstructs the
original values field for field, and the parsed command is a JSON object with
exactly one `register` member whose object holds exactly the five fields
`cwd`, `events`, `ignores`, `patterns`, `uid`, each once (serialization is a
function, hence deterministic). -/
theorem register_command_roundtrip (cwd : String)
    (events ignores patterns : List String) (uid : Nat) :
    parseTop (to_json (registerData cwd events ignores patterns uid)) =
        some (registerData cwd events ignores patterns uid) ∧
      registerData cwd events ignores patterns uid =
        [("register", JVal.obj
          [("cwd", .jstr cwd), ("events", .jarr events),
            ("ignores", .jarr ignores), ("patterns", .jarr patterns),
            ("uid", .jint uid)])] :=
  ⟨parseTop_to_json _, rfl⟩

/-- C4 counterexample: the undecodable line `[0xff]` makes `read_data` raise
`StopLoopError`, and the read loop then aborts without ever delivering the
following, perfectly decodable line `"ok"` (`[0x6f, 0x6b]`) — it does not
continue with subsequent lines. -/
theorem decode_failure_stops_read_loop :
    read_data [255] = .error .mk ∧ readLoop [[255], [111, 107]] = [] := by
  constructor
  · decide
  · decide

/-- C4 amended: a byte line that fails UTF-8 decoding is logged and leaves no
usable line, whereupon `read_data` raises `StopLoopError` — which terminates
the background read loop (like end-of-stream) instead of letting it continue
with subsequent lines. -/
theorem decode_failure_raises_stopLoop (bytes : List Nat)
    (h : utf8Decode bytes = none) :
    read_data bytes = .error .mk ∧ ∀ rest, readLoop (bytes :: rest) = [] := by
  have h1 : read_data bytes = .error .mk := by
    unfold read_data
    rw [h]
    rfl
  refine ⟨h1, fun rest => ?_⟩
  rw [readLoop, h1]

/-- C4 amended witness: the line `[0xff]`. -/
theorem decode_failure_raises_stopLoop_witness :
    utf8Decode [255] = none ∧
      (read_data [255] = .error .mk ∧ ∀ rest, readLoop ([255] :: rest) = []) :=
  ⟨by decide, decode_failure_raises_stopLoop [255] (by decide)⟩

end Watcher
